import Mathlib

set_option autoImplicit false
set_option maxHeartbeats 1000000

/-!
Verification of the two core utilities of the repository:

* `train/utils/merge_annotations.py` — merging two COCO-style instance
  files with identifier remapping (`get_max_id`, `build_image_id_mapping`,
  `remap_annotations`, `validate_coco_like`, `merge_instances`);
* `train/data/fiber/convert_coco_to_masks.py` — rendering union masks per
  image (`ann_to_mask`) and per-instance mask labels (`save_instance_masks`).

The Python scripts operate on JSON dictionaries.  A scalar field value is
modelled by `PyVal`: `PyVal.int n` stands for any value on which Python's
`int(...)` succeeds and yields `n` (integers and numeric strings), while
`PyVal.other s` stands for any value on which `int(...)` raises
`TypeError`/`ValueError` (the tag `s` only keeps distinct values distinct).
A JSON record (an image or annotation entry) is an association list
`PyDict` with the first-match lookup / in-place-update / remove operations
of a Python dict.
-/

inductive PyVal : Type where
  | int : Int → PyVal
  | other : String → PyVal
  deriving DecidableEq

/-- `int(v)` in Python: succeeds exactly on the `PyVal.int` values. -/
def pyInt : PyVal → Option Int
  | .int n => some n
  | .other _ => none

abbrev PyDict := List (String × PyVal)

/-- `d[k]` / `k in d`: first-match lookup in a record. -/
def dget : PyDict → String → Option PyVal
  | [], _ => none
  | (k', v) :: rest, k => if k' = k then some v else dget rest k

/-- `d[k] = v`: replace the value at an existing key in place, else append. -/
def dset : PyDict → String → PyVal → PyDict
  | [], k, v => [(k, v)]
  | (k', v') :: rest, k, v =>
      if k' = k then (k, v) :: rest else (k', v') :: dset rest k v

/-- `d.pop(k, None)`: remove a key from a record. -/
def dpop (r : PyDict) (k : String) : PyDict :=
  r.filter (fun p => p.1 != k)

theorem dget_dset_self (r : PyDict) (k : String) (v : PyVal) :
    dget (dset r k v) k = some v := by
  induction r with
  | nil => simp [dget, dset]
  | cons p rest ih =>
      obtain ⟨k', v'⟩ := p
      by_cases h : k' = k
      · simp [dset, h, dget]
      · simp [dset, h, dget, ih]

theorem dget_dset_ne (r : PyDict) (k k' : String) (v : PyVal) (h : k ≠ k') :
    dget (dset r k v) k' = dget r k' := by
  have h2 : ¬ (k' = k) := fun hh => h hh.symm
  induction r with
  | nil => simp [dget, dset, h, h2]
  | cons p rest ih =>
      obtain ⟨k₀, v₀⟩ := p
      by_cases hk : k₀ = k
      · subst hk
        simp [dset, dget, h, h2, ih]
      · by_cases hk' : k₀ = k'
        · simp [dset, hk, dget, hk', h, h2]
        · simp [dset, hk, dget, hk', h, h2, ih]

theorem dget_dpop_self (r : PyDict) (k : String) :
    dget (dpop r k) k = none := by
  induction r with
  | nil => simp [dget, dpop]
  | cons p rest ih =>
      obtain ⟨k₀, v₀⟩ := p
      by_cases hk : k₀ = k
      · simpa [dpop, List.filter_cons, bne_iff_ne, hk] using ih
      · simpa [dpop, List.filter_cons, bne_iff_ne, hk, dget] using ih

theorem dget_dpop_ne (r : PyDict) (k k' : String) (h : k ≠ k') :
    dget (dpop r k) k' = dget r k' := by
  have h2 : ¬ (k' = k) := fun hh => h hh.symm
  induction r with
  | nil => simp [dget, dpop]
  | cons p rest ih =>
      obtain ⟨k₀, v₀⟩ := p
      by_cases hk : k₀ = k
      · have hne : ¬ (k₀ = k') := by rw [hk]; exact h
        simpa [dpop, List.filter_cons, bne_iff_ne, hk, dget, hne, h, h2] using ih
      · by_cases hk' : k₀ = k'
        · simp [dpop, List.filter_cons, bne_iff_ne, hk, dget, hk', h, h2]
        · simpa [dpop, List.filter_cons, bne_iff_ne, hk, dget, hk', h, h2] using ih

/-! ## merge_annotations.py -/

/-- The distinct fatal failures `merge_instances` can raise (in the source
all of them are `ValueError`/`TypeError` exceptions; the constructors keep
the distinct raise sites distinct). -/
inductive MergeErr : Type where
  /-- `validate_coco_like`: `"{label} missing required key: {key}"`. -/
  | invalidSchema : String → String → MergeErr
  /-- `build_image_id_mapping`: `"Every image must contain an 'id' field"`. -/
  | missingImageId : MergeErr
  /-- `build_image_id_mapping`: `int(image["id"])` raised. -/
  | nonIntImageId : MergeErr
  /-- `remap_annotations`: `"Every annotation must contain an 'image_id' field"`. -/
  | missingAnnImageId : MergeErr
  /-- `remap_annotations`: `int(ann["image_id"])` raised. -/
  | nonIntAnnImageId : MergeErr
  /-- `remap_annotations`: `"Annotation references unknown image_id ..."`. -/
  | danglingImageId : Int → MergeErr
  deriving DecidableEq

instance instDecEqExcept {ε α : Type} [DecidableEq ε] [DecidableEq α] :
    DecidableEq (Except ε α) := by
  intro a b
  cases a with
  | error e =>
      cases b with
      | error e' => exact decidable_of_iff (e = e') (by simp)
      | ok a' => exact isFalse (by simp)
  | ok a =>
      cases b with
      | error e' => exact isFalse (by simp)
      | ok a' => exact decidable_of_iff (a = a') (by simp)

/-- `int(item[key])` with `KeyError/TypeError/ValueError` folded to `none`. -/
def keyInt (r : PyDict) (k : String) : Option Int :=
  (dget r k).bind pyInt

/-- Loop body of `get_max_id`: skip an entry whose `key` is absent or not
`int(...)`-convertible, otherwise keep the larger value. -/
def gmStep (key : String) (max_id : Int) (item : PyDict) : Int :=
  match keyInt item key with
  | none => max_id
  | some value => if value > max_id then value else max_id

/-- `get_max_id(items, key)` from the source: fold over the records,
returning the running maximum starting from 0. -/
def get_max_id (items : List PyDict) (key : String) : Int :=
  items.foldl (gmStep key) 0

/-- The `old_to_new` dict of `build_image_id_mapping`: lookup. -/
def mlook : List (Int × Int) → Int → Option Int
  | [], _ => none
  | (k, v) :: rest, k' => if k = k' then some v else mlook rest k'

/-- The `old_to_new` dict of `build_image_id_mapping`: assignment. -/
def mset : List (Int × Int) → Int → Int → List (Int × Int)
  | [], k, v => [(k, v)]
  | (k', v') :: rest, k, v =>
      if k' = k then (k, v) :: rest else (k', v') :: mset rest k v

theorem mlook_mset_self (m : List (Int × Int)) (k v : Int) :
    mlook (mset m k v) k = some v := by
  induction m with
  | nil => simp [mlook, mset]
  | cons p rest ih =>
      obtain ⟨k', v'⟩ := p
      by_cases h : k' = k
      · simp [mset, h, mlook]
      · simp [mset, h, mlook, ih]

theorem mlook_mset_ne (m : List (Int × Int)) (k v k' : Int) (h : k ≠ k') :
    mlook (mset m k v) k' = mlook m k' := by
  have h2 : ¬ (k' = k) := fun hh => h hh.symm
  induction m with
  | nil => simp [mlook, mset, h]
  | cons p rest ih =>
      obtain ⟨k₀, v₀⟩ := p
      by_cases hk : k₀ = k
      · subst hk
        simp [mset, mlook, h, h2, ih]
      · by_cases hk' : k₀ = k'
        · simp [mset, hk, mlook, hk', h, h2]
        · simp [mset, hk, mlook, hk', h, h2, ih]

theorem mlook_mem (m : List (Int × Int)) (k v : Int)
    (h : mlook m k = some v) : (k, v) ∈ m := by
  induction m with
  | nil => simp [mlook] at h
  | cons p rest ih =>
      obtain ⟨k₀, v₀⟩ := p
      by_cases hk : k₀ = k
      · subst hk
        simp [mlook] at h
        simp [h]
      · simp [mlook, hk] at h
        exact List.mem_cons_of_mem _ (ih h)

theorem mlook_mset_cases (m : List (Int × Int)) (k v k' v' : Int)
    (h : mlook (mset m k v) k' = some v') :
    (k' = k ∧ v' = v) ∨ mlook m k' = some v' := by
  by_cases hk : k = k'
  · subst hk
    rw [mlook_mset_self] at h
    exact Or.inl ⟨rfl, (Option.some_injective _ h).symm⟩
  · rw [mlook_mset_ne m k v k' hk] at h
    exact Or.inr h

/-- The per-image rewrite performed inside the `build_image_id_mapping`
loop: `new_image = copy.deepcopy(image); new_image["id"] = old_id + offset`
(deep copies are identities on immutable values). -/
def remapImg (offset : Int) (r : PyDict) : PyDict :=
  dset r "id" (.int ((keyInt r "id").getD 0 + offset))

/-- Loop of `build_image_id_mapping`, with the two accumulators
`updated_images` and `old_to_new`. -/
def bimGo (image_id_offset : Int) :
    List PyDict → List PyDict → List (Int × Int) →
      Except MergeErr (List PyDict × List (Int × Int))
  | [], accI, accM => .ok (accI, accM)
  | image :: rest, accI, accM =>
      match dget image "id" with
      | none => .error .missingImageId
      | some v =>
          match pyInt v with
          | none => .error .nonIntImageId
          | some old_id =>
              bimGo image_id_offset rest
                (accI ++ [dset image "id" (.int (old_id + image_id_offset))])
                (mset accM old_id (old_id + image_id_offset))

/-- `build_image_id_mapping(images_b, image_id_offset)` from the source. -/
def build_image_id_mapping (images_b : List PyDict) (image_id_offset : Int) :
    Except MergeErr (List PyDict × List (Int × Int)) :=
  bimGo image_id_offset images_b [] []

/-- The per-annotation rewrite performed inside the `remap_annotations`
loop (on the success path): set `image_id` to its image in the mapping, then
offset a numeric own `id` or drop a non-numeric own `id`. -/
def remapAnnF (image_id_map : List (Int × Int)) (annotation_id_offset : Int)
    (ann : PyDict) : PyDict :=
  let new_ann := dset ann "image_id"
    (.int (((keyInt ann "image_id").bind (mlook image_id_map)).getD 0))
  match dget ann "id" with
  | none => new_ann
  | some idv =>
      match pyInt idv with
      | some old => dset new_ann "id" (.int (old + annotation_id_offset))
      | none => dpop new_ann "id"

/-- Loop of `remap_annotations` with the `updated_annotations` accumulator. -/
def remapGo (image_id_map : List (Int × Int)) (annotation_id_offset : Int) :
    List PyDict → List PyDict → Except MergeErr (List PyDict)
  | [], acc => .ok acc
  | ann :: rest, acc =>
      match dget ann "image_id" with
      | none => .error .missingAnnImageId
      | some v =>
          match pyInt v with
          | none => .error .nonIntAnnImageId
          | some old_image_id =>
              match mlook image_id_map old_image_id with
              | none => .error (.danglingImageId old_image_id)
              | some _ =>
                  remapGo image_id_map annotation_id_offset rest
                    (acc ++ [remapAnnF image_id_map annotation_id_offset ann])

/-- `remap_annotations(annotations_b, image_id_map, annotation_id_offset)`. -/
def remap_annotations (annotations_b : List PyDict)
    (image_id_map : List (Int × Int)) (annotation_id_offset : Int) :
    Except MergeErr (List PyDict) :=
  remapGo image_id_map annotation_id_offset annotations_b []

/-- A COCO-like top-level JSON object.  The keys the script treats
specially are explicit fields (`none` = key absent); `extra` holds every
other top-level key (as opaque values) in insertion order. -/
structure Dataset : Type where
  images? : Option (List PyDict)
  annotations? : Option (List PyDict)
  info? : Option PyVal
  licenses? : Option PyVal
  categories? : Option PyVal
  extra : List (String × PyVal)
  deriving DecidableEq

/-- `validate_coco_like(payload, label)`: both `images` and `annotations`
must be present (in the model presence already implies list-ness, which is
the only other check the source makes). -/
def validate_coco_like (d : Dataset) (label : String) : Except MergeErr Unit :=
  match d.images? with
  | none => .error (.invalidSchema label "images")
  | some _ =>
      match d.annotations? with
      | none => .error (.invalidSchema label "annotations")
      | some _ => .ok ()

/-- `merge_instances(a, b)` from the source.  After validation the script
indexes `a["images"]` etc. directly; `Option.getD []` is the corresponding
total projection (the `none` case is unreachable past validation).
Deep copies of unmodified values are identities here; the stderr warning
about differing `categories` has no effect on the result and is omitted. -/
def merge_instances (a b : Dataset) : Except MergeErr Dataset :=
  match validate_coco_like a "First JSON" with
  | .error e => .error e
  | .ok _ =>
      match validate_coco_like b "Second JSON" with
      | .error e => .error e
      | .ok _ =>
          let images_a := a.images?.getD []
          let annotations_a := a.annotations?.getD []
          let max_image_id_a := get_max_id images_a "id"
          let max_ann_id_a := get_max_id annotations_a "id"
          match build_image_id_mapping (b.images?.getD []) max_image_id_a with
          | .error e => .error e
          | .ok (updated_images_b, image_id_map) =>
              match remap_annotations (b.annotations?.getD []) image_id_map
                  max_ann_id_a with
              | .error e => .error e
              | .ok updated_annotations_b =>
                  .ok { images? := some (images_a ++ updated_images_b)
                        annotations? :=
                          some (annotations_a ++ updated_annotations_b)
                        info? := a.info?
                        licenses? := a.licenses?
                        categories? := a.categories?
                        extra := a.extra }

/-! ### Properties of `get_max_id` -/

theorem gmFold_init_le (key : String) :
    ∀ (items : List PyDict) (init : Int),
      init ≤ items.foldl (gmStep key) init := by
  intro items
  induction items with
  | nil => intro init; simp
  | cons r rest ih =>
      intro init
      refine le_trans ?_ (ih (gmStep key init r))
      unfold gmStep
      cases keyInt r key with
      | none => exact le_refl _
      | some value =>
          by_cases hv : value > init
          · simp [hv]; omega
          · simp [hv]

theorem gmFold_ge (key : String) :
    ∀ (items : List PyDict) (init v : Int),
      (∃ r ∈ items, keyInt r key = some v) →
      v ≤ items.foldl (gmStep key) init := by
  intro items
  induction items with
  | nil => intro init v h; simp at h
  | cons r rest ih =>
      intro init v h
      obtain ⟨r', hr', hv⟩ := h
      rcases List.mem_cons.mp hr' with rfl | hmem
      · refine le_trans ?_ (gmFold_init_le key rest (gmStep key init r'))
        unfold gmStep
        rw [hv]
        by_cases hgt : v > init
        · simp [hgt]
        · simp [hgt]; omega
      · exact ih (gmStep key init r) v ⟨r', hmem, hv⟩

theorem gmFold_mem_or (key : String) :
    ∀ (items : List PyDict) (init : Int),
      items.foldl (gmStep key) init = init ∨
      ∃ r ∈ items, keyInt r key = some (items.foldl (gmStep key) init) := by
  intro items
  induction items with
  | nil => intro init; simp
  | cons r rest ih =>
      intro init
      rcases ih (gmStep key init r) with h | h
      · simp only [List.foldl_cons, h]
        unfold gmStep
        cases hv : keyInt r key with
        | none => exact Or.inl rfl
        | some value =>
            by_cases hgt : value > init
            · refine Or.inr ⟨r, List.mem_cons_self r rest, ?_⟩
              rw [hv]
              simp [hgt]
            · simp [hgt]
      · obtain ⟨r', hr', hv⟩ := h
        exact Or.inr ⟨r', List.mem_cons_of_mem r hr', hv⟩

theorem get_max_id_nonneg (items : List PyDict) (key : String) :
    0 ≤ get_max_id items key :=
  gmFold_init_le key items 0

theorem get_max_id_ge (items : List PyDict) (key : String) (v : Int)
    (h : ∃ r ∈ items, keyInt r key = some v) :
    v ≤ get_max_id items key :=
  gmFold_ge key items 0 v h

/-! ### Properties of `build_image_id_mapping` -/

theorem bimGo_ok_images (off : Int) :
    ∀ (imgs accI : List PyDict) (accM : List (Int × Int))
      (out : List PyDict) (M : List (Int × Int)),
      bimGo off imgs accI accM = .ok (out, M) →
      out = accI ++ imgs.map (remapImg off) := by
  intro imgs
  induction imgs with
  | nil =>
      intro accI accM out M h
      simp [bimGo] at h
      simp [← h.1]
  | cons img rest ih =>
      intro accI accM out M h
      simp only [bimGo] at h
      split at h
      · exact absurd h (by simp)
      next v hid =>
        split at h
        · exact absurd h (by simp)
        next old hv =>
          have hout := ih _ _ _ _ h
          have hre : remapImg off img = dset img "id" (.int (old + off)) := by
            simp [remapImg, keyInt, hid, hv]
          rw [hout]
          simp [hre]

theorem bimGo_ok_mlook (off : Int) :
    ∀ (imgs accI : List PyDict) (accM : List (Int × Int))
      (out : List PyDict) (M : List (Int × Int)),
      bimGo off imgs accI accM = .ok (out, M) →
      ∀ n : Int,
        (mlook accM n = some (n + off) ∨ ∃ r ∈ imgs, keyInt r "id" = some n) →
        mlook M n = some (n + off) := by
  intro imgs
  induction imgs with
  | nil =>
      intro accI accM out M h n hn
      simp [bimGo] at h
      rcases hn with hn | hn
      · rw [← h.2]; exact hn
      · simp at hn
  | cons img rest ih =>
      intro accI accM out M h n hn
      simp only [bimGo] at h
      split at h
      · exact absurd h (by simp)
      next v hid =>
        split at h
        · exact absurd h (by simp)
        next old hv =>
          apply ih _ _ _ _ h
          rcases hn with hn | hn
          · left
            by_cases hno : old = n
            · subst hno; rw [mlook_mset_self]
            · rw [mlook_mset_ne _ _ _ _ hno]; exact hn
          · obtain ⟨r, hr, hrid⟩ := hn
            rcases List.mem_cons.mp hr with rfl | hr'
            · left
              have hon : old = n := by
                simp [keyInt, hid, hv] at hrid; exact hrid
              subst hon
              rw [mlook_mset_self]
            · right; exact ⟨r, hr', hrid⟩

theorem bimGo_ok_vals (off : Int) :
    ∀ (imgs accI : List PyDict) (accM : List (Int × Int))
      (out : List PyDict) (M : List (Int × Int)),
      bimGo off imgs accI accM = .ok (out, M) →
      ∀ k v : Int, mlook M k = some v →
        mlook accM k = some v ∨
          (v = k + off ∧ ∃ r ∈ imgs, keyInt r "id" = some k) := by
  intro imgs
  induction imgs with
  | nil =>
      intro accI accM out M h k v hkv
      simp [bimGo] at h
      rw [← h.2] at hkv
      exact Or.inl hkv
  | cons img rest ih =>
      intro accI accM out M h k v hkv
      simp only [bimGo] at h
      split at h
      · exact absurd h (by simp)
      next w hid =>
        split at h
        · exact absurd h (by simp)
        next old hv =>
          rcases ih _ _ _ _ h k v hkv with hacc | hrest
          · rcases mlook_mset_cases accM old (old + off) k v hacc with
              ⟨rfl, rfl⟩ | hacc'
            · exact Or.inr ⟨rfl,
                ⟨img, List.mem_cons_self img rest, by simp [keyInt, hid, hv]⟩⟩
            · exact Or.inl hacc'
          · obtain ⟨hvk, r, hr, hrid⟩ := hrest
            exact Or.inr ⟨hvk, ⟨r, List.mem_cons_of_mem img hr, hrid⟩⟩

theorem bimGo_isOk (off : Int) :
    ∀ (imgs accI : List PyDict) (accM : List (Int × Int)),
      (∀ r ∈ imgs, (keyInt r "id").isSome) →
      ∃ out M, bimGo off imgs accI accM = .ok (out, M) := by
  intro imgs
  induction imgs with
  | nil => intro accI accM _; exact ⟨accI, accM, rfl⟩
  | cons img rest ih =>
      intro accI accM hall
      have hh := hall img (List.mem_cons_self img rest)
      cases hid : dget img "id" with
      | none => rw [keyInt, hid] at hh; simp at hh
      | some v =>
          cases hv : pyInt v with
          | none => rw [keyInt, hid] at hh; simp [hv] at hh
          | some old =>
              obtain ⟨out, M, hrec⟩ :=
                ih (accI ++ [dset img "id" (.int (old + off))])
                  (mset accM old (old + off))
                  (fun r hr => hall r (List.mem_cons_of_mem img hr))
              refine ⟨out, M, ?_⟩
              simp only [bimGo, hid, hv]
              exact hrec

theorem bimGo_isErr (off : Int) :
    ∀ (imgs accI : List PyDict) (accM : List (Int × Int)),
      (∃ r ∈ imgs, keyInt r "id" = none) →
      ∃ e, bimGo off imgs accI accM = .error e := by
  intro imgs
  induction imgs with
  | nil => intro accI accM h; simp at h
  | cons img rest ih =>
      intro accI accM h
      cases hid : dget img "id" with
      | none => exact ⟨.missingImageId, by simp only [bimGo, hid]⟩
      | some v =>
          cases hv : pyInt v with
          | none => exact ⟨.nonIntImageId, by simp only [bimGo, hid, hv]⟩
          | some old =>
              obtain ⟨r, hr, hbad⟩ := h
              rcases List.mem_cons.mp hr with rfl | hr'
              · rw [keyInt, hid] at hbad; simp [hv] at hbad
              · obtain ⟨e, he⟩ :=
                  ih (accI ++ [dset img "id" (.int (old + off))])
                    (mset accM old (old + off)) ⟨r, hr', hbad⟩
                refine ⟨e, ?_⟩
                simp only [bimGo, hid, hv]
                exact he

/-! ### Properties of `remap_annotations` -/

theorem remapGo_ok_anns (M : List (Int × Int)) (annOff : Int) :
    ∀ (anns acc out : List PyDict),
      remapGo M annOff anns acc = .ok out →
      out = acc ++ anns.map (remapAnnF M annOff) := by
  intro anns
  induction anns with
  | nil =>
      intro acc out h
      simp [remapGo] at h
      simp [← h]
  | cons ann rest ih =>
      intro acc out h
      simp only [remapGo] at h
      split at h
      · exact absurd h (by simp)
      next v hv =>
        split at h
        · exact absurd h (by simp)
        next old hold =>
          split at h
          · exact absurd h (by simp)
          next nw hnw =>
            have hout := ih _ _ h
            rw [hout]
            simp

theorem remapGo_ok_good (M : List (Int × Int)) (annOff : Int) :
    ∀ (anns acc out : List PyDict),
      remapGo M annOff anns acc = .ok out →
      ∀ a ∈ anns, ∃ n nn : Int,
        keyInt a "image_id" = some n ∧ mlook M n = some nn := by
  intro anns
  induction anns with
  | nil => intro acc out _ a ha; simp at ha
  | cons ann rest ih =>
      intro acc out h a ha
      simp only [remapGo] at h
      split at h
      · exact absurd h (by simp)
      next v hv =>
        split at h
        · exact absurd h (by simp)
        next old hold =>
          split at h
          · exact absurd h (by simp)
          next nw hnw =>
            rcases List.mem_cons.mp ha with rfl | ha'
            · exact ⟨old, nw, by simp [keyInt, hv, hold], hnw⟩
            · exact ih _ _ h a ha'

theorem remapGo_isOk (M : List (Int × Int)) (annOff : Int) :
    ∀ (anns acc : List PyDict),
      (∀ a ∈ anns, ∃ n : Int, keyInt a "image_id" = some n ∧
        (mlook M n).isSome) →
      remapGo M annOff anns acc = .ok (acc ++ anns.map (remapAnnF M annOff)) := by
  intro anns
  induction anns with
  | nil => intro acc _; simp [remapGo]
  | cons ann rest ih =>
      intro acc hall
      obtain ⟨n, hn, hsome⟩ := hall ann (List.mem_cons_self ann rest)
      cases hv : dget ann "image_id" with
      | none => rw [keyInt, hv] at hn; simp at hn
      | some v =>
          cases hold : pyInt v with
          | none => rw [keyInt, hv] at hn; simp [hold] at hn
          | some old =>
              have hno : old = n := by
                rw [keyInt, hv] at hn; simp [hold] at hn; exact hn
              subst hno
              cases hnw : mlook M old with
              | none => rw [hnw] at hsome; simp at hsome
              | some nw =>
                  have hrec := ih (acc ++ [remapAnnF M annOff ann])
                    (fun a ha => hall a (List.mem_cons_of_mem ann ha))
                  simp only [remapGo, hv, hold, hnw]
                  rw [hrec]
                  simp

theorem remapGo_isErr (M : List (Int × Int)) (annOff : Int) :
    ∀ (anns acc : List PyDict),
      (∃ a ∈ anns, dget a "image_id" = none ∨
        ∃ v, dget a "image_id" = some v ∧
          (pyInt v = none ∨ ∃ n : Int, pyInt v = some n ∧ mlook M n = none)) →
      ∃ e, remapGo M annOff anns acc = .error e := by
  intro anns
  induction anns with
  | nil => intro acc h; simp at h
  | cons ann rest ih =>
      intro acc h
      cases hv : dget ann "image_id" with
      | none => exact ⟨.missingAnnImageId, by simp only [remapGo, hv]⟩
      | some v =>
          cases hold : pyInt v with
          | none => exact ⟨.nonIntAnnImageId, by simp only [remapGo, hv, hold]⟩
          | some old =>
              cases hnw : mlook M old with
              | none =>
                  exact ⟨.danglingImageId old,
                    by simp only [remapGo, hv, hold, hnw]⟩
              | some nw =>
                  obtain ⟨a, ha, hbad⟩ := h
                  rcases List.mem_cons.mp ha with rfl | ha'
                  · exfalso
                    rcases hbad with hbad | ⟨w, hw, hbad⟩
                    · rw [hbad] at hv; exact absurd hv (by simp)
                    · rw [hw] at hv
                      have hwv : w = v := by
                        exact Option.some_injective _ hv
                      subst hwv
                      rcases hbad with hbad | ⟨n, hn, hmn⟩
                      · rw [hbad] at hold; exact absurd hold (by simp)
                      · rw [hn] at hold
                        have : n = old := Option.some_injective _ hold
                        subst this
                        rw [hmn] at hnw
                        exact absurd hnw (by simp)
                  · obtain ⟨e, he⟩ :=
                      ih (acc ++ [remapAnnF M annOff ann]) ⟨a, ha', hbad⟩
                    refine ⟨e, ?_⟩
                    simp only [remapGo, hv, hold, hnw]
                    exact he

/-! ### Unfolding `merge_instances` on success -/

theorem validate_ok (d : Dataset) (label : String) (u : Unit)
    (h : validate_coco_like d label = .ok u) :
    ∃ ai aa, d.images? = some ai ∧ d.annotations? = some aa := by
  unfold validate_coco_like at h
  split at h
  · exact absurd h (by simp)
  next ai hai =>
    split at h
    · exact absurd h (by simp)
    next aa haa => exact ⟨ai, aa, hai, haa⟩

theorem merge_ok_parts (a b m : Dataset)
    (h : merge_instances a b = .ok m) :
    ∃ ai aa bi ba ubi M uba,
      a.images? = some ai ∧ a.annotations? = some aa ∧
      b.images? = some bi ∧ b.annotations? = some ba ∧
      build_image_id_mapping bi (get_max_id ai "id") = .ok (ubi, M) ∧
      remap_annotations ba M (get_max_id aa "id") = .ok uba ∧
      m = { images? := some (ai ++ ubi)
            annotations? := some (aa ++ uba)
            info? := a.info?
            licenses? := a.licenses?
            categories? := a.categories?
            extra := a.extra } := by
  unfold merge_instances at h
  split at h
  · exact absurd h (by simp)
  next u hva =>
    split at h
    · exact absurd h (by simp)
    next u' hvb =>
      obtain ⟨ai, aa, hai, haa⟩ := validate_ok a "First JSON" u hva
      obtain ⟨bi, ba, hbi, hba⟩ := validate_ok b "Second JSON" u' hvb
      rw [hai, haa, hbi, hba] at h
      simp only [Option.getD_some] at h
      split at h
      · exact absurd h (by simp)
      next ubi M hbim =>
        split at h
        · exact absurd h (by simp)
        next uba hrm =>
          refine ⟨ai, aa, bi, ba, ubi, M, uba, hai, haa, hbi, hba, hbim, hrm, ?_⟩
          simp at h
          exact h.symm

/-! ### Small derived facts used by the claims -/

/-- The image ids a record list exposes (records whose `id` is absent or
non-convertible contribute nothing, exactly as in `get_max_id`). -/
def imgIdsOf (l : List PyDict) : List Int :=
  l.filterMap (fun r => keyInt r "id")

theorem filterMap_eq_map_of {α β : Type} (f : α → Option β) (g : α → β) :
    ∀ l : List α, (∀ x ∈ l, f x = some (g x)) → l.filterMap f = l.map g := by
  intro l
  induction l with
  | nil => intro _; simp
  | cons x xs ih =>
      intro h
      rw [List.filterMap_cons, h x (List.mem_cons_self x xs)]
      rw [List.map_cons, ih (fun y hy => h y (List.mem_cons_of_mem x hy))]

theorem remapImg_id (off : Int) (r : PyDict) :
    dget (remapImg off r) "id" = some (.int ((keyInt r "id").getD 0 + off)) :=
  dget_dset_self r "id" _

theorem remapAnnF_image_id (M : List (Int × Int)) (annOff : Int)
    (ann : PyDict) :
    dget (remapAnnF M annOff ann) "image_id" =
      some (.int (((keyInt ann "image_id").bind (mlook M)).getD 0)) := by
  cases hid : dget ann "id" with
  | none =>
      simp only [remapAnnF, hid]
      exact dget_dset_self ann "image_id" _
  | some v =>
      cases hv : pyInt v with
      | some old =>
          simp only [remapAnnF, hid, hv]
          rw [dget_dset_ne _ "id" "image_id" _ (by decide)]
          exact dget_dset_self ann "image_id" _
      | none =>
          simp only [remapAnnF, hid, hv]
          rw [dget_dpop_ne _ "id" "image_id" (by decide)]
          exact dget_dset_self ann "image_id" _

theorem remapAnnF_own_id_int (M : List (Int × Int)) (annOff : Int)
    (ann : PyDict) (v : PyVal) (n : Int)
    (hid : dget ann "id" = some v) (hn : pyInt v = some n) :
    dget (remapAnnF M annOff ann) "id" = some (.int (n + annOff)) := by
  unfold remapAnnF
  rw [hid]
  simp only [hn]
  exact dget_dset_self _ "id" _

theorem remapAnnF_own_id_dropped (M : List (Int × Int)) (annOff : Int)
    (ann : PyDict) (v : PyVal)
    (hid : dget ann "id" = some v) (hn : pyInt v = none) :
    dget (remapAnnF M annOff ann) "id" = none := by
  unfold remapAnnF
  rw [hid]
  simp only [hn]
  exact dget_dpop_self _ "id"

/-! ## Claim theorems: merger side -/

/-- C3: on a list of records each carrying a non-negative integer-valued
`id`, `get_max_id` returns 0 on the empty list, an element of the id list
otherwise, and an upper bound of the id list in all cases — i.e. the
maximum of the id set, and 0 when the set is empty. -/
theorem claim_c3_get_max_id (items : List PyDict) (vals : List Int)
    (hv : vals = items.filterMap (fun r => keyInt r "id"))
    (hall : ∀ r ∈ items, (keyInt r "id").isSome)
    (hnn : ∀ v ∈ vals, 0 ≤ v) :
    (items = [] → get_max_id items "id" = 0) ∧
    (items ≠ [] → get_max_id items "id" ∈ vals) ∧
    (∀ v ∈ vals, v ≤ get_max_id items "id") := by
  refine ⟨?_, ?_, ?_⟩
  · rintro rfl; rfl
  · intro hne
    rcases gmFold_mem_or "id" items 0 with h0 | hmem
    · cases items with
      | nil => exact absurd rfl hne
      | cons r0 rest =>
          have hs := hall r0 (List.mem_cons_self r0 rest)
          cases hk : keyInt r0 "id" with
          | none => rw [hk] at hs; simp at hs
          | some v0 =>
              have hv0mem : v0 ∈ vals := by
                rw [hv]
                exact List.mem_filterMap.mpr
                  ⟨r0, List.mem_cons_self r0 rest, hk⟩
              have hle : v0 ≤ get_max_id (r0 :: rest) "id" :=
                get_max_id_ge _ "id" v0 ⟨r0, List.mem_cons_self r0 rest, hk⟩
              have h00 : get_max_id (r0 :: rest) "id" = 0 := h0
              have : v0 = 0 := le_antisymm (by rw [← h00]; exact hle)
                (hnn v0 hv0mem)
              rw [h00, ← this]
              exact hv0mem
    · obtain ⟨r, hr, hk⟩ := hmem
      rw [hv]
      exact List.mem_filterMap.mpr ⟨r, hr, hk⟩
  · intro v hvm
    rw [hv] at hvm
    obtain ⟨r, hr, hk⟩ := List.mem_filterMap.mp hvm
    exact get_max_id_ge items "id" v ⟨r, hr, hk⟩

/-- C3 witness: `get_max_id` on ids {5, 2, 9} is 9 (a member and an upper
bound), and on the empty list it is 0. -/
theorem claim_c3_witness :
    get_max_id [[("id", PyVal.int 5)], [("id", PyVal.int 2)],
      [("id", PyVal.int 9)]] "id" ∈ ([5, 2, 9] : List Int) ∧
    get_max_id [[("id", PyVal.int 5)], [("id", PyVal.int 2)],
      [("id", PyVal.int 9)]] "id" = 9 ∧
    get_max_id [] "id" = 0 := by
  have h := claim_c3_get_max_id
    [[("id", PyVal.int 5)], [("id", PyVal.int 2)], [("id", PyVal.int 9)]]
    [5, 2, 9] (by decide) (by decide) (by decide)
  exact ⟨h.2.1 (by decide), by decide, rfl⟩

/-- C4 counterexample: a list whose single image does carry an `id` field
(so by the claim the call must succeed and return a total mapping), yet
`build_image_id_mapping` fails because the id is not numeric — and the
error raised is not the missing-image-id error. -/
theorem claim_c4_counterexample :
    (∀ r ∈ [[("id", PyVal.other "x")]], dget r "id" ≠ none) ∧
    build_image_id_mapping [[("id", PyVal.other "x")]] 0 =
      .error .nonIntImageId ∧
    MergeErr.nonIntImageId ≠ MergeErr.missingImageId := by
  exact ⟨by decide, rfl, by decide⟩

/-- C4 (amended): `build_image_id_mapping` fails iff some image lacks an
`id` field or carries an `id` on which `int(...)` fails; when every image
carries a convertible id, the remapped images are the input images in
order with `new_id = old_id + offset`, and the returned mapping is total:
every old id is a key, mapped to `old id + offset`. -/
theorem claim_c4_amended (imgs : List PyDict) (off : Int) :
    ((∃ e, build_image_id_mapping imgs off = .error e) ↔
      ∃ r ∈ imgs, keyInt r "id" = none) ∧
    (∀ out M, build_image_id_mapping imgs off = .ok (out, M) →
      out = imgs.map (remapImg off) ∧
      ∀ r ∈ imgs, ∀ n : Int, keyInt r "id" = some n →
        mlook M n = some (n + off)) := by
  constructor
  · constructor
    · rintro ⟨e, he⟩
      by_contra hno
      push_neg at hno
      have hall : ∀ r ∈ imgs, (keyInt r "id").isSome := by
        intro r hr
        cases hk : keyInt r "id" with
        | none => exact absurd hk (hno r hr)
        | some _ => simp
      obtain ⟨out, M, hokk⟩ := bimGo_isOk off imgs [] [] hall
      rw [build_image_id_mapping, hokk] at he
      exact absurd he (by simp)
    · rintro ⟨r, hr, hbad⟩
      exact bimGo_isErr off imgs [] [] ⟨r, hr, hbad⟩
  · intro out M hokk
    constructor
    · simpa using bimGo_ok_images off imgs [] [] out M hokk
    · intro r hr n hn
      exact bimGo_ok_mlook off imgs [] [] out M hokk n (Or.inr ⟨r, hr, hn⟩)

/-- C4 witness: on one image with id 3 and offset 10 the call succeeds, the
image is rewritten to id 13, and the mapping sends 3 to 3 + 10. -/
theorem claim_c4_witness :
    [[("id", PyVal.int 3)]].map (remapImg 10) = [[("id", PyVal.int 13)]] ∧
    mlook [(3, 13)] 3 = some (3 + 10) := by
  have h := (claim_c4_amended [[("id", PyVal.int 3)]] 10).2
    [[("id", PyVal.int 13)]] [(3, 13)] (by rfl)
  exact ⟨h.1.symm, h.2 [("id", PyVal.int 3)] (by decide) 3 (by decide)⟩

/-- C6: whenever every annotation of B resolves its `image_id` in the
mapping, `remap_annotations` succeeds no matter what the annotations' own
`id` fields hold; the output has one annotation per input in order, a
numeric `id` is rewritten to `id + annotation_id_offset`, and a
non-numeric `id` is removed from the output annotation (which is kept). -/
theorem claim_c6_own_ids (anns : List PyDict) (M : List (Int × Int))
    (annOff : Int)
    (hgood : ∀ a ∈ anns, ∃ n : Int, keyInt a "image_id" = some n ∧
      (mlook M n).isSome) :
    remap_annotations anns M annOff = .ok (anns.map (remapAnnF M annOff)) ∧
    (anns.map (remapAnnF M annOff)).length = anns.length ∧
    ∀ ann ∈ anns, ∀ v, dget ann "id" = some v →
      (∀ n : Int, pyInt v = some n →
        dget (remapAnnF M annOff ann) "id" = some (.int (n + annOff))) ∧
      (pyInt v = none → dget (remapAnnF M annOff ann) "id" = none) := by
  refine ⟨?_, by simp, ?_⟩
  · have h := remapGo_isOk M annOff anns [] hgood
    simpa [remap_annotations] using h
  · intro ann _ v hid
    exact ⟨fun n hn => remapAnnF_own_id_int M annOff ann v n hid hn,
      fun hn => remapAnnF_own_id_dropped M annOff ann v hid hn⟩

/-- C6 witness: two annotations referencing image 1 (mapped to 6), one with
numeric id 2 (rewritten to 12), one with non-numeric id (dropped); the
call succeeds and keeps both annotations. -/
theorem claim_c6_witness :
    remap_annotations
      [[("image_id", PyVal.int 1), ("id", PyVal.int 2)],
       [("image_id", PyVal.int 1), ("id", PyVal.other "z")]]
      [(1, 6)] 10 =
      .ok [[("image_id", PyVal.int 6), ("id", PyVal.int 12)],
           [("image_id", PyVal.int 6)]] ∧
    dget (remapAnnF [(1, 6)] 10
      [("image_id", PyVal.int 1), ("id", PyVal.int 2)]) "id" =
      some (PyVal.int 12) ∧
    dget (remapAnnF [(1, 6)] 10
      [("image_id", PyVal.int 1), ("id", PyVal.other "z")]) "id" = none := by
  have h := claim_c6_own_ids
    [[("image_id", PyVal.int 1), ("id", PyVal.int 2)],
     [("image_id", PyVal.int 1), ("id", PyVal.other "z")]]
    [(1, 6)] 10
    (by intro a ha; exact ⟨1, by fin_cases ha <;> decide, by decide⟩)
  refine ⟨by rw [h.1]; decide, ?_, ?_⟩
  · exact (h.2.2 _ (by decide) (PyVal.int 2) (by decide)).1 2 (by decide)
  · exact (h.2.2 _ (by decide) (PyVal.other "z") (by decide)).2 (by decide)

/-- The empty second dataset of the C9 round-trip property. -/
def emptyDatasetB : Dataset :=
  { images? := some [], annotations? := some [], info? := none,
    licenses? := none, categories? := none, extra := [] }

/-- C9: merging any schema-valid dataset A with an empty B returns exactly
A: same images, same annotations, and all metadata fields carried over
unchanged. -/
theorem claim_c9_empty_b (a : Dataset) (ai aa : List PyDict)
    (hai : a.images? = some ai) (haa : a.annotations? = some aa) :
    merge_instances a emptyDatasetB = .ok a := by
  obtain ⟨i, an, inf, lic, cat, ex⟩ := a
  simp only [Dataset.images?] at hai
  simp only [Dataset.annotations?] at haa
  subst hai haa
  unfold merge_instances validate_coco_like emptyDatasetB
  simp [build_image_id_mapping, bimGo, remap_annotations, remapGo]

/-- C9 witness at a concrete one-image, one-annotation dataset. -/
theorem claim_c9_witness :
    merge_instances
      { images? := some [[("id", PyVal.int 5)]],
        annotations? := some [[("image_id", PyVal.int 5)]],
        info? := some (PyVal.other "info"), licenses? := none,
        categories? := some (PyVal.other "cats"),
        extra := [("extraKey", PyVal.int 7)] }
      emptyDatasetB =
      .ok { images? := some [[("id", PyVal.int 5)]],
            annotations? := some [[("image_id", PyVal.int 5)]],
            info? := some (PyVal.other "info"), licenses? := none,
            categories? := some (PyVal.other "cats"),
            extra := [("extraKey", PyVal.int 7)] } :=
  claim_c9_empty_b _ [[("id", PyVal.int 5)]] [[("image_id", PyVal.int 5)]]
    rfl rfl

/-- Concrete dataset A used by several witnesses: one image (id 5), one
annotation referencing it with own id 2. -/
def wa2 : Dataset :=
  { images? := some [[("id", PyVal.int 5)]],
    annotations? := some [[("image_id", PyVal.int 5), ("id", PyVal.int 2)]],
    info? := none, licenses? := none, categories? := none, extra := [] }

/-- Concrete dataset B used by several witnesses: one image (id 1), one
annotation referencing it with a non-numeric own id. -/
def wb2 : Dataset :=
  { images? := some [[("id", PyVal.int 1)]],
    annotations? :=
      some [[("image_id", PyVal.int 1), ("id", PyVal.other "z")]],
    info? := none, licenses? := none, categories? := none, extra := [] }

/-- The merge of `wa2` and `wb2` (offsets 5 and 2). -/
def wm2 : Dataset :=
  { images? := some [[("id", PyVal.int 5)], [("id", PyVal.int 6)]],
    annotations? :=
      some [[("image_id", PyVal.int 5), ("id", PyVal.int 2)],
            [("image_id", PyVal.int 6)]],
    info? := none, licenses? := none, categories? := none, extra := [] }

/-- C2: whenever `merge_instances` succeeds, the result's images are
exactly A's images followed by B's images rewritten pointwise in their
original order, and the result's annotations are exactly A's annotations
followed by B's annotations rewritten pointwise in their original order —
nothing reordered, nothing dropped. -/
theorem claim_c2_order (a b m : Dataset)
    (hok : merge_instances a b = .ok m) :
    ∃ ai aa bi ba M,
      a.images? = some ai ∧ a.annotations? = some aa ∧
      b.images? = some bi ∧ b.annotations? = some ba ∧
      m.images? = some (ai ++ bi.map (remapImg (get_max_id ai "id"))) ∧
      m.annotations? =
        some (aa ++ ba.map (remapAnnF M (get_max_id aa "id"))) ∧
      build_image_id_mapping bi (get_max_id ai "id") =
        .ok (bi.map (remapImg (get_max_id ai "id")), M) := by
  obtain ⟨ai, aa, bi, ba, ubi, M, uba, hai, haa, hbi, hba, hbim, hrm, hm⟩ :=
    merge_ok_parts a b m hok
  have hubi : ubi = bi.map (remapImg (get_max_id ai "id")) := by
    simpa using bimGo_ok_images (get_max_id ai "id") bi [] [] ubi M hbim
  have huba : uba = ba.map (remapAnnF M (get_max_id aa "id")) := by
    simpa using remapGo_ok_anns M (get_max_id aa "id") ba [] uba hrm
  subst hubi huba
  refine ⟨ai, aa, bi, ba, M, hai, haa, hbi, hba, ?_, ?_, hbim⟩
  · rw [hm]
  · rw [hm]

/-- C2 witness at concrete two-record datasets. -/
theorem claim_c2_witness :
    ∃ ai aa bi ba M,
      wa2.images? = some ai ∧ wa2.annotations? = some aa ∧
      wb2.images? = some bi ∧ wb2.annotations? = some ba ∧
      wm2.images? = some (ai ++ bi.map (remapImg (get_max_id ai "id"))) ∧
      wm2.annotations? =
        some (aa ++ ba.map (remapAnnF M (get_max_id aa "id"))) ∧
      build_image_id_mapping bi (get_max_id ai "id") =
        .ok (bi.map (remapImg (get_max_id ai "id")), M) :=
  claim_c2_order wa2 wb2 wm2 (by decide)

/-- C5: if any annotation of B lacks `image_id`, or carries one that does
not resolve to a key of the mapping built from B's images, the merge
fails with a fatal error (in the source, the uncaught `ValueError` raised
in `remap_annotations`) and produces no merged output. -/
theorem claim_c5_dangling (a b : Dataset) (ai aa bi ba ubi : List PyDict)
    (M : List (Int × Int))
    (hai : a.images? = some ai) (haa : a.annotations? = some aa)
    (hbi : b.images? = some bi) (hba : b.annotations? = some ba)
    (hbim : build_image_id_mapping bi (get_max_id ai "id") = .ok (ubi, M))
    (hbad : ∃ ann ∈ ba, dget ann "image_id" = none ∨
      ∃ v, dget ann "image_id" = some v ∧
        (pyInt v = none ∨ ∃ n : Int, pyInt v = some n ∧ mlook M n = none)) :
    (∃ e, merge_instances a b = .error e) ∧
    ∀ m, merge_instances a b ≠ .ok m := by
  obtain ⟨e, he⟩ := remapGo_isErr M (get_max_id aa "id") ba [] hbad
  have hmerge : merge_instances a b = .error e := by
    unfold merge_instances validate_coco_like
    simp only [hai, haa, hbi, hba, Option.getD_some]
    simp only [hbim]
    simp only [remap_annotations, he]
  refine ⟨⟨e, hmerge⟩, fun m hm => ?_⟩
  rw [hmerge] at hm
  exact absurd hm (by simp)

/-- Concrete dataset B with an annotation lacking `image_id`. -/
def wb5 : Dataset :=
  { images? := some [[("id", PyVal.int 1)]],
    annotations? := some [[("id", PyVal.int 3)]],
    info? := none, licenses? := none, categories? := none, extra := [] }

/-- C5 witness: merging `wa2` with a B whose only annotation lacks
`image_id` fails. -/
theorem claim_c5_witness :
    ∃ e, merge_instances wa2 wb5 = .error e :=
  (claim_c5_dangling wa2 wb5 [[("id", PyVal.int 5)]]
    [[("image_id", PyVal.int 5), ("id", PyVal.int 2)]]
    [[("id", PyVal.int 1)]] [[("id", PyVal.int 3)]]
    [[("id", PyVal.int 6)]] [(1, 6)]
    rfl rfl rfl rfl (by decide)
    ⟨[("id", PyVal.int 3)], by decide, Or.inl (by decide)⟩).1

/-- C1 counterexample: both inputs are datasets whose images carry
non-negative integer ids, pairwise distinct within each input, and the
merge is accepted — yet the result carries two images with id 5 (the
offset is the maximum of A's ids, and B contains id 0, so 0 + 5 collides
with A's 5), and A's annotation referencing the non-existent image 99 is
copied to the result unvalidated, resolving to no image. -/
theorem claim_c1_counterexample :
    merge_instances
      { images? := some [[("id", PyVal.int 5)]],
        annotations? := some [[("image_id", PyVal.int 99)]],
        info? := none, licenses? := none, categories? := none, extra := [] }
      { images? := some [[("id", PyVal.int 0)]], annotations? := some [],
        info? := none, licenses? := none, categories? := none, extra := [] }
      = .ok
      { images? := some [[("id", PyVal.int 5)], [("id", PyVal.int 5)]],
        annotations? := some [[("image_id", PyVal.int 99)]],
        info? := none, licenses? := none, categories? := none,
        extra := [] } ∧
    ¬ (imgIdsOf [[("id", PyVal.int 5)], [("id", PyVal.int 5)]]).Nodup ∧
    (99 : Int) ∉ imgIdsOf [[("id", PyVal.int 5)], [("id", PyVal.int 5)]] :=
  ⟨by decide, by decide, by decide⟩

/-- C1 (amended): with image ids pairwise distinct within each input (as
the data model demands) and the two hypotheses the code forces — every
image id of B is at least 1 (the offset is `max`, not `max + 1`, so a B id
of 0 collides with A's maximum) and every annotation of A resolves within
A (the merge never validates A's annotations) — all image ids in the
merged result are pairwise distinct and every merged annotation's
`image_id` equals the id of some merged image. -/
theorem claim_c1_amended (a b m : Dataset) (ai aa bi ba : List PyDict)
    (hai : a.images? = some ai) (haa : a.annotations? = some aa)
    (hbi : b.images? = some bi) (hba : b.annotations? = some ba)
    (haid : ∀ r ∈ ai, ∃ n : Int, keyInt r "id" = some n ∧ 0 ≤ n)
    (hbid : ∀ r ∈ bi, ∃ n : Int, keyInt r "id" = some n ∧ 1 ≤ n)
    (hnodA : (imgIdsOf ai).Nodup) (hnodB : (imgIdsOf bi).Nodup)
    (hares : ∀ r ∈ aa, ∃ n : Int, keyInt r "image_id" = some n ∧
      n ∈ imgIdsOf ai)
    (hok : merge_instances a b = .ok m) :
    (imgIdsOf (m.images?.getD [])).Nodup ∧
    ∀ r ∈ m.annotations?.getD [], ∃ n : Int,
      keyInt r "image_id" = some n ∧ n ∈ imgIdsOf (m.images?.getD []) := by
  obtain ⟨ai', aa', bi', ba', ubi, M, uba, hai2, haa2, hbi2, hba2, hbim,
    hrm, hm⟩ := merge_ok_parts a b m hok
  rw [hai] at hai2
  rw [haa] at haa2
  rw [hbi] at hbi2
  rw [hba] at hba2
  obtain rfl : ai = ai' := Option.some_injective _ hai2
  obtain rfl : aa = aa' := Option.some_injective _ haa2
  obtain rfl : bi = bi' := Option.some_injective _ hbi2
  obtain rfl : ba = ba' := Option.some_injective _ hba2
  have hubi : ubi = bi.map (remapImg (get_max_id ai "id")) := by
    simpa using bimGo_ok_images (get_max_id ai "id") bi [] [] ubi M hbim
  have hubIds : imgIdsOf ubi =
      (imgIdsOf bi).map (fun x => x + get_max_id ai "id") := by
    rw [hubi, imgIdsOf, List.filterMap_map]
    have h1 : bi.filterMap
        ((fun r => keyInt r "id") ∘ remapImg (get_max_id ai "id")) =
        bi.map (fun r => (keyInt r "id").getD 0 + get_max_id ai "id") :=
      filterMap_eq_map_of _ _ bi (fun r _ => by
        show keyInt (remapImg (get_max_id ai "id") r) "id" = _
        rw [keyInt, remapImg_id]
        rfl)
    rw [h1]
    have h2 : imgIdsOf bi = bi.map (fun r => (keyInt r "id").getD 0) :=
      filterMap_eq_map_of _ _ bi (fun r hr => by
        obtain ⟨n, hn, _⟩ := hbid r hr
        rw [hn]
        rfl)
    rw [h2, List.map_map]
    rfl
  have hmimg : m.images?.getD [] = ai ++ ubi := by simp [hm]
  have hidsplit : imgIdsOf (ai ++ ubi) = imgIdsOf ai ++ imgIdsOf ubi := by
    simp [imgIdsOf, List.filterMap_append]
  have hA_le : ∀ x ∈ imgIdsOf ai, x ≤ get_max_id ai "id" := by
    intro x hx
    obtain ⟨r, hr, hk⟩ := List.mem_filterMap.mp hx
    exact get_max_id_ge ai "id" x ⟨r, hr, hk⟩
  have hB_ge : ∀ x ∈ imgIdsOf bi, 1 ≤ x := by
    intro x hx
    obtain ⟨r, hr, hk⟩ := List.mem_filterMap.mp hx
    obtain ⟨n, hn, h1⟩ := hbid r hr
    rw [hn] at hk
    obtain rfl : n = x := Option.some_injective _ hk
    exact h1
  constructor
  · rw [hmimg, hidsplit, hubIds]
    rw [List.nodup_append]
    have hinj : Function.Injective
        (fun x : Int => x + get_max_id ai "id") := by
      intro x y hxy
      simpa using hxy
    refine ⟨hnodA, hnodB.map hinj, ?_⟩
    intro x hx hx2
    obtain ⟨y, hy, hxy⟩ := List.mem_map.mp hx2
    have h1 := hA_le x hx
    have h2 := hB_ge y hy
    omega
  · have hmann : m.annotations?.getD [] = aa ++ uba := by simp [hm]
    have huba : uba = ba.map (remapAnnF M (get_max_id aa "id")) := by
      simpa using remapGo_ok_anns M (get_max_id aa "id") ba [] uba hrm
    intro r hr
    rw [hmann] at hr
    rcases List.mem_append.mp hr with hrA | hrB
    · obtain ⟨n, hn, hmem⟩ := hares r hrA
      refine ⟨n, hn, ?_⟩
      rw [hmimg, hidsplit]
      exact List.mem_append_left _ hmem
    · rw [huba] at hrB
      obtain ⟨ann, hann, rfl⟩ := List.mem_map.mp hrB
      obtain ⟨n, nn, hkey, hml⟩ :=
        remapGo_ok_good M (get_max_id aa "id") ba [] uba hrm ann hann
      refine ⟨nn, ?_, ?_⟩
      · rw [keyInt, remapAnnF_image_id, hkey]
        simp [hml, pyInt]
      · rw [hmimg, hidsplit]
        apply List.mem_append_right
        rcases bimGo_ok_vals (get_max_id ai "id") bi [] [] ubi M hbim n nn
          hml with h0 | ⟨hnn, rr, hrr, hkr⟩
        · simp [mlook] at h0
        · rw [hubIds]
          exact List.mem_map.mpr
            ⟨n, List.mem_filterMap.mpr ⟨rr, hrr, hkr⟩, hnn.symm⟩

/-- C1 witness: the amended claim applied to `wa2` and `wb2` (B's image id
is 1 ≥ 1, A's annotation resolves within A). -/
theorem claim_c1_witness :
    (imgIdsOf (wm2.images?.getD [])).Nodup ∧
    ∀ r ∈ wm2.annotations?.getD [], ∃ n : Int,
      keyInt r "image_id" = some n ∧
        n ∈ imgIdsOf (wm2.images?.getD []) :=
  claim_c1_amended wa2 wb2 wm2 [[("id", PyVal.int 5)]]
    [[("image_id", PyVal.int 5), ("id", PyVal.int 2)]]
    [[("id", PyVal.int 1)]]
    [[("image_id", PyVal.int 1), ("id", PyVal.other "z")]]
    rfl rfl rfl rfl
    (fun r hr => by
      have hrr := List.mem_singleton.mp hr
      subst hrr
      exact ⟨5, by decide, by decide⟩)
    (fun r hr => by
      have hrr := List.mem_singleton.mp hr
      subst hrr
      exact ⟨1, by decide, by decide⟩)
    (by decide) (by decide)
    (fun r hr => by
      have hrr := List.mem_singleton.mp hr
      subst hrr
      exact ⟨5, by decide, by decide⟩)
    (by decide)

/-! ## convert_coco_to_masks.py

The script delegates decoding to `pycocotools` (`frPyObjects`,
`maskUtils.merge`, `maskUtils.decode`), which is not part of this
repository; those operations are modelled from the spec (§4.1–4.2).  The
polygon rasterizer's fill rule is left open by the spec, so it is a
parameter of the model. -/

/-- The `counts` field of an RLE-shaped segmentation dict: a list of
integers (uncompressed) or an encoded string (compressed). -/
inductive Cnts : Type where
  | ints : List Int → Cnts
  | str : String → Cnts
  deriving DecidableEq

/-- A segmentation payload, by the structural shape the script
discriminates on: a JSON list (polygon rings) or a JSON object with
optional `counts` and `size` entries. -/
inductive Segm : Type where
  | poly : List (List Int) → Segm
  | dict : Option Cnts → Option (Nat × Nat) → Segm
  deriving DecidableEq

abbrev BMask := List (List Bool)

def zerosB (h w : Nat) : BMask :=
  List.replicate h (List.replicate w false)

def zerosR (h w : Nat) : List (List Nat) :=
  List.replicate h (List.replicate w 0)

/-- Pointwise logical OR of two masks of identical dimensions. -/
def orMask (m1 m2 : BMask) : BMask :=
  List.zipWith (fun r1 r2 => List.zipWith (fun a b => a || b) r1 r2) m1 m2

/-- Modelled from the spec (§4.1): expand run lengths into a flat pixel
sequence alternating background/foreground starting with background; a
negative count is Malformed. -/
def runsToFlat : List Int → Bool → Option (List Bool)
  | [], _ => some []
  | c :: rest, b =>
      if c < 0 then none
      else (runsToFlat rest (!b)).map
        (fun f => List.replicate c.toNat b ++ f)

/-- Modelled from the spec (§4.1): column-major reshaping of a flat pixel
sequence into an h×w grid. -/
def colMajor (h w : Nat) (flat : List Bool) : BMask :=
  (List.range h).map
    (fun r => (List.range w).map (fun c => flat.getD (c * h + r) false))

/-- Modelled from the spec (§4.1, uncompressed RLE): walk the counts in
column-major order; Malformed on a negative count, LengthMismatch when the
counts do not sum to height×width. -/
def rleDecodeCounts (counts : List Int) (h w : Nat) : Except Unit BMask :=
  match runsToFlat counts false with
  | none => .error ()
  | some flat =>
      if flat.length = h * w then .ok (colMajor h w flat) else .error ()

/-- Modelled from the spec (§4.1, compressed RLE): one character of the
byte-packed counts; characters outside the 64-value window are malformed. -/
def sixbit (c : Char) : Option Nat :=
  if 48 ≤ c.toNat ∧ c.toNat < 112 then some (c.toNat - 48) else none

/-- Modelled from the spec (§4.1, compressed RLE): 6-bit units, bits 0–4
payload accumulated little-endian, bit 5 continuation, bit 4 of a final
unit the sign (sign-extended); a trailing unfinished integer is
malformed. -/
def decodeVarints : List Nat → Nat → Nat → Option (List Int)
  | [], _, shift => if shift = 0 then some [] else none
  | u :: rest, acc, shift =>
      let acc' := acc + u % 32 * 2 ^ shift
      if u / 32 = 1 then decodeVarints rest acc' (shift + 5)
      else
        (decodeVarints rest 0 0).map
          (fun vs =>
            (if u % 32 / 16 = 1 then (acc' : Int) - 2 ^ (shift + 5)
             else (acc' : Int)) :: vs)

/-- Modelled from the spec (§4.1, compressed RLE): decode the byte-packed
counts string back to the run-length sequence. -/
def parseCounts (s : String) : Option (List Int) :=
  (s.data.mapM sixbit).bind (fun us => decodeVarints us 0 0)

/-- An annotation record as `convert_coco_to_masks.py` reads it: the
`segmentation` payload plus the four fields consulted for instance
labels. -/
structure MAnn : Type where
  segmentation : Option Segm
  id? : Option PyVal
  instance_id? : Option PyVal
  annId? : Option PyVal
  category_id? : Option PyVal
  deriving DecidableEq

/-- What the script appends to `rles` for one annotation: either an
already-converted mask (the result of `frPyObjects`, modelled by its
decoded pixels) or a dict passed through untouched — the final `else`
branch of line 44–45 keeps `segm` itself with no validation. -/
inductive RLEv : Type where
  | mask : BMask → RLEv
  | raw : Segm → RLEv
  deriving DecidableEq

/-- The external polygon rasterizer (`frPyObjects` on a list of rings); the
spec leaves its fill rule open, so the model abstracts over it. -/
abbrev PolyDec := List (List Int) → Nat → Nat → Except Unit BMask

/-- The try-block body of `ann_to_mask` (lines 44–47): `frPyObjects` for a
polygon (JSON list) or a dict whose `counts` is a list (uncompressed RLE);
any other payload is passed through as-is.  Exceptions from conversion are
caught by the caller; a passthrough cannot raise. -/
def segConvert (pdec : PolyDec) (h w : Nat) : Segm → Except Unit RLEv
  | .poly rings => (pdec rings h w).map .mask
  | .dict (some (.ints l)) _ => (rleDecodeCounts l h w).map .mask
  | s => .ok (.raw s)

/-- Modelled from the spec: decode one stored RLE at merge time.  A raw
dict must carry an encoded `counts` string and a `size` equal to the
requested dimensions, and its runs must decode to exactly h×w pixels. -/
def decodeRLEv (h w : Nat) : RLEv → Except Unit BMask
  | .mask m => .ok m
  | .raw (.dict (some (.str s)) (some (hh, ww))) =>
      if hh = h ∧ ww = w then
        match parseCounts s with
        | none => .error ()
        | some cs => rleDecodeCounts cs h w
      else .error ()
  | .raw _ => .error ()

/-- Modelled from the spec (§4.2 Union): `maskUtils.merge` followed by
`maskUtils.decode` — the logical OR of the decoded masks, failing if any
stored RLE is undecodable. -/
def mergeDecode (h w : Nat) (rles : List RLEv) : Except Unit BMask :=
  (rles.mapM (decodeRLEv h w)).map
    (fun ms => ms.foldl orMask (zerosB h w))

/-- The per-annotation collection loop of `ann_to_mask` (lines 38–50):
skip an annotation with no `segmentation`; otherwise try to convert,
appending on success and skipping on exception. -/
def collectRles (pdec : PolyDec) (h w : Nat) (anns : List MAnn) :
    List RLEv :=
  anns.foldl
    (fun acc ann =>
      match ann.segmentation with
      | none => acc
      | some segm =>
          match segConvert pdec h w segm with
          | .ok r => acc ++ [r]
          | .error _ => acc)
    []

/-- `ann_to_mask(h, w, anns)` from the source: an empty annotation list or
an empty collected-RLE list gives the all-background h×w mask; otherwise
the collected RLEs are merged and decoded — outside the per-annotation
try/except — and scaled to {0, 255}.  The result is fallible precisely
because that final step is unprotected. -/
def ann_to_mask (pdec : PolyDec) (h w : Nat) (anns : List MAnn) :
    Except Unit (List (List Nat)) :=
  if anns.length = 0 then .ok (zerosR h w)
  else
    let rles := collectRles pdec h w anns
    if rles.length = 0 then .ok (zerosR h w)
    else
      (mergeDecode h w rles).map
        (fun m => m.map (fun row => row.map (fun b => if b then 255 else 0)))

/-- Python truthiness of the modelled scalar values: 0 and the empty
string are falsy. -/
def pyTruthy : PyVal → Bool
  | .int n => n != 0
  | .other s => s != ""

/-- `a or b` on optional Python values: `None` and falsy values select the
right operand, which is returned as-is. -/
def pyOr (a b : Option PyVal) : Option PyVal :=
  match a with
  | some v => if pyTruthy v then some v else b
  | none => b

/-- Lines 83–85 of `save_instance_masks`: the label attached to one
instance mask — `ann.get('id', None) or ann.get('instance_id', None) or
ann.get('annId', None)`, then `ann.get('category_id', 0)` only when that
chain produced `None`. -/
def save_instance_masks_label (ann : MAnn) : PyVal :=
  match pyOr (pyOr ann.id? ann.instance_id?) ann.annId? with
  | none => ann.category_id?.getD (.int 0)
  | some v => v

/-! ## Claim theorems: mask side -/

/-- C7: the failing input.  A 1×1 image with two annotations: a good
uncompressed RLE (all foreground) and a malformed dict-shaped segmentation
with no `counts` (which the conversion loop passes through unvalidated).
Alone, the good annotation renders to the all-255 union mask; together
with the malformed sibling, the entire call fails at the unprotected
merge/decode step instead of skipping the malformed annotation — so the
good sibling's union mask is never produced, contrary to the claim (and
to the script's own `Skip malformed segmentation` comment). -/
theorem claim_c7_sibling_abort (pdec : PolyDec) :
    ann_to_mask pdec 1 1
      [{ segmentation := some (.dict (some (.ints [0, 1])) (some (1, 1))),
         id? := none, instance_id? := none, annId? := none,
         category_id? := none }] = .ok [[255]] ∧
    ann_to_mask pdec 1 1
      [{ segmentation := some (.dict (some (.ints [0, 1])) (some (1, 1))),
         id? := none, instance_id? := none, annId? := none,
         category_id? := none },
       { segmentation := some (.dict none (some (1, 1))),
         id? := none, instance_id? := none, annId? := none,
         category_id? := none }] = .error () ∧
    ann_to_mask pdec 1 1 [] = .ok (zerosR 1 1) :=
  ⟨rfl, rfl, rfl⟩

/-- C8: the label chain uses Python truthiness, so an annotation whose own
`id` is present but 0 is labelled with its `instance_id` (7) instead of
its id — the claim requires that only true absence of the field triggers
the fallback, so the label should have been 0. -/
theorem claim_c8_label_truthiness :
    save_instance_masks_label
      { segmentation := none, id? := some (.int 0),
        instance_id? := some (.int 7), annId? := none,
        category_id? := some (.int 3) } = .int 7 ∧
    ({ segmentation := none, id? := some (.int 0),
       instance_id? := some (.int 7), annId? := none,
       category_id? := some (.int 3) } : MAnn).id? = some (.int 0) ∧
    PyVal.int 7 ≠ PyVal.int 0 :=
  ⟨rfl, rfl, by decide⟩

/-! ## A store-passing model of the copy discipline (C10)

`merge_instances` mutates nothing it did not just allocate: every record
placed in the output is `copy.deepcopy`-ed first and the id rewrites are
performed on the fresh copies.  To state that, the same functions are
re-run over an explicit heap: records live at addresses (indices into the
heap), `copy.deepcopy` allocates a fresh address with the same contents,
and `d[k] = v` writes through an address.  The records the script mutates
are dicts of scalars — the only writes are `new_image["id"]`,
`new_ann["image_id"]`, `new_ann["id"]` — so a flat record heap captures
exactly the aliasing the script exercises. -/

abbrev PyHeap := List PyDict

def hget (h : PyHeap) (a : Nat) : PyDict := h.getD a []

/-- Allocate a fresh record, returning the new heap and its address. -/
def halloc (h : PyHeap) (r : PyDict) : PyHeap × Nat := (h ++ [r], h.length)

/-- `copy.deepcopy` of the record at `a`: a fresh address, same contents. -/
def hdeepcopy (h : PyHeap) (a : Nat) : PyHeap × Nat := halloc h (hget h a)

/-- `obj[k] = v` through address `a`. -/
def hsetf (h : PyHeap) (a : Nat) (k : String) (v : PyVal) : PyHeap :=
  h.set a (dset (hget h a) k v)

/-- `obj.pop(k, None)` through address `a`. -/
def hpopf (h : PyHeap) (a : Nat) (k : String) : PyHeap :=
  h.set a (dpop (hget h a) k)

/-- The loop of `build_image_id_mapping` over the heap: read the original
record, deep-copy it, write the new id into the copy only. -/
def bimGoH (off : Int) :
    List Nat → PyHeap → List Nat → List (Int × Int) →
      Except MergeErr (PyHeap × List Nat × List (Int × Int))
  | [], h, accI, accM => .ok (h, accI, accM)
  | a :: rest, h, accI, accM =>
      match dget (hget h a) "id" with
      | none => .error .missingImageId
      | some v =>
          match pyInt v with
          | none => .error .nonIntImageId
          | some old =>
              let p := hdeepcopy h a
              let h2 := hsetf p.1 p.2 "id" (.int (old + off))
              bimGoH off rest h2 (accI ++ [p.2]) (mset accM old (old + off))

/-- The loop of `remap_annotations` over the heap: membership and value
tests read the original record at `a`; all writes go to the fresh copy. -/
def remapGoH (M : List (Int × Int)) (annOff : Int) :
    List Nat → PyHeap → List Nat → Except MergeErr (PyHeap × List Nat)
  | [], h, acc => .ok (h, acc)
  | a :: rest, h, acc =>
      match dget (hget h a) "image_id" with
      | none => .error .missingAnnImageId
      | some v =>
          match pyInt v with
          | none => .error .nonIntAnnImageId
          | some old =>
              match mlook M old with
              | none => .error (.danglingImageId old)
              | some nw =>
                  let p := hdeepcopy h a
                  let h2 := hsetf p.1 p.2 "image_id" (.int nw)
                  let h3 :=
                    match dget (hget h a) "id" with
                    | none => h2
                    | some idv =>
                        match pyInt idv with
                        | some oldid =>
                            hsetf h2 p.2 "id" (.int (oldid + annOff))
                        | none => hpopf h2 p.2 "id"
                  remapGoH M annOff rest h3 (acc ++ [p.2])

/-- `copy.deepcopy` of one optional metadata value. -/
def copyOpt (h : PyHeap) : Option Nat → PyHeap × Option Nat
  | none => (h, none)
  | some a =>
      let p := hdeepcopy h a
      (p.1, some p.2)

/-- `copy.deepcopy` of a list of records, element by element. -/
def copyList (h : PyHeap) : List Nat → PyHeap × List Nat
  | [] => (h, [])
  | a :: rest =>
      let p := hdeepcopy h a
      let q := copyList p.1 rest
      (q.1, p.2 :: q.2)

/-- `copy.deepcopy` of the values of the remaining top-level keys. -/
def copyExtra (h : PyHeap) :
    List (String × Nat) → PyHeap × List (String × Nat)
  | [] => (h, [])
  | (k, a) :: rest =>
      let p := hdeepcopy h a
      let q := copyExtra p.1 rest
      (q.1, (k, p.2) :: q.2)

/-- A dataset whose records live on the heap: lists of record addresses,
plus addresses of the opaque metadata values. -/
structure HDataset : Type where
  images? : Option (List Nat)
  annotations? : Option (List Nat)
  info? : Option Nat
  licenses? : Option Nat
  categories? : Option Nat
  extra : List (String × Nat)
  deriving DecidableEq

/-- `merge_instances` over the heap, with the source's operation order:
validation, offsets from the original records, B's images then B's
annotations, then the deep copies of A's metadata, images, annotations and
remaining keys. -/
def merge_instancesH (h0 : PyHeap) (a b : HDataset) :
    Except MergeErr (PyHeap × HDataset) :=
  match a.images?, a.annotations? with
  | none, _ => .error (.invalidSchema "First JSON" "images")
  | some _, none => .error (.invalidSchema "First JSON" "annotations")
  | some ai, some aa =>
      match b.images?, b.annotations? with
      | none, _ => .error (.invalidSchema "Second JSON" "images")
      | some _, none => .error (.invalidSchema "Second JSON" "annotations")
      | some bi, some ba =>
          match bimGoH (get_max_id (ai.map (hget h0)) "id") bi h0 [] [] with
          | .error e => .error e
          | .ok (h1, ubi, M) =>
              match remapGoH M (get_max_id (aa.map (hget h0)) "id") ba h1 []
                  with
              | .error e => .error e
              | .ok (h2, uba) =>
                  let pI := copyOpt h2 a.info?
                  let pL := copyOpt pI.1 a.licenses?
                  let pC := copyOpt pL.1 a.categories?
                  let pAi := copyList pC.1 ai
                  let pAa := copyList pAi.1 aa
                  let pEx := copyExtra pAa.1 a.extra
                  .ok (pEx.1,
                    { images? := some (pAi.2 ++ ubi)
                      annotations? := some (pAa.2 ++ uba)
                      info? := pI.2
                      licenses? := pL.2
                      categories? := pC.2
                      extra := pEx.2 })

/-- All record addresses a heap dataset refers to. -/
def addrsOfH (d : HDataset) : List Nat :=
  d.images?.getD [] ++ d.annotations?.getD [] ++ d.info?.toList ++
    d.licenses?.toList ++ d.categories?.toList ++ d.extra.map (fun p => p.2)

/-- The heap has at least `n` cells and its first `n` cells are unchanged
relative to `h`. -/
def HFrame (n : Nat) (h h' : PyHeap) : Prop :=
  n ≤ h'.length ∧ ∀ i, i < n → h'.getD i [] = h.getD i []

theorem hframe_trans {n : Nat} {h h' h'' : PyHeap}
    (f1 : HFrame n h h') (f2 : HFrame n h' h'') : HFrame n h h'' :=
  ⟨f2.1, fun i hi => (f2.2 i hi).trans (f1.2 i hi)⟩

theorem getD_set_ne {α : Type} :
    ∀ (l : List α) (a i : Nat) (x d : α), i ≠ a →
      (l.set a x).getD i d = l.getD i d := by
  intro l
  induction l with
  | nil => intro a i x d _; simp
  | cons y ys ih =>
      intro a i x d hne
      cases a with
      | zero =>
          cases i with
          | zero => exact absurd rfl hne
          | succ j => simp [List.set]
      | succ a' =>
          cases i with
          | zero => simp [List.set]
          | succ j =>
              simp only [List.set, List.getD_cons_succ]
              exact ih a' j x d (by omega)

theorem hframe_alloc (n : Nat) (h : PyHeap) (r : PyDict)
    (hn : n ≤ h.length) : HFrame n h (h ++ [r]) := by
  refine ⟨by simp; omega, fun i hi => ?_⟩
  rw [List.getD_append]
  omega

theorem hframe_set (n : Nat) (h : PyHeap) (a : Nat) (r : PyDict)
    (hn : n ≤ h.length) (ha : n ≤ a) : HFrame n h (h.set a r) := by
  refine ⟨by simp [hn], fun i hi => ?_⟩
  exact getD_set_ne h a i r [] (by omega)

theorem hframe_alloc_set (n : Nat) (h : PyHeap) (r s : PyDict)
    (hn : n ≤ h.length) : HFrame n h ((h ++ [r]).set h.length s) :=
  hframe_trans (hframe_alloc n h r hn)
    (hframe_set n (h ++ [r]) h.length s (by simp; omega) hn)

theorem bimGoH_frame (off : Int) (n : Nat) :
    ∀ (addrs : List Nat) (h : PyHeap) (accI : List Nat)
      (accM : List (Int × Int)) (h' : PyHeap) (out : List Nat)
      (M : List (Int × Int)),
      bimGoH off addrs h accI accM = .ok (h', out, M) →
      n ≤ h.length →
      HFrame n h h' ∧ ∀ x ∈ out, x ∈ accI ∨ n ≤ x := by
  intro addrs
  induction addrs with
  | nil =>
      intro h accI accM h' out M hok hn
      simp [bimGoH] at hok
      obtain ⟨rfl, rfl, rfl⟩ := hok
      exact ⟨⟨hn, fun _ _ => rfl⟩, fun x hx => Or.inl hx⟩
  | cons a rest ih =>
      intro h accI accM h' out M hok hn
      simp only [bimGoH, hdeepcopy, halloc, hsetf] at hok
      split at hok
      · exact absurd hok (by simp)
      next v hv =>
        split at hok
        · exact absurd hok (by simp)
        next old hold =>
          obtain ⟨f2, hout⟩ := ih _ _ _ _ _ _ hok (by simp; omega)
          refine ⟨hframe_trans (hframe_alloc_set n h _ _ hn) f2, ?_⟩
          intro x hx
          rcases hout x hx with hacc | hge
          · rcases List.mem_append.mp hacc with h1 | h1
            · exact Or.inl h1
            · right
              have : x = h.length := by simpa using h1
              omega
          · exact Or.inr hge

theorem remapGoH_frame (M : List (Int × Int)) (annOff : Int) (n : Nat) :
    ∀ (addrs : List Nat) (h : PyHeap) (acc : List Nat)
      (h' : PyHeap) (out : List Nat),
      remapGoH M annOff addrs h acc = .ok (h', out) →
      n ≤ h.length →
      HFrame n h h' ∧ ∀ x ∈ out, x ∈ acc ∨ n ≤ x := by
  intro addrs
  induction addrs with
  | nil =>
      intro h acc h' out hok hn
      simp [remapGoH] at hok
      obtain ⟨rfl, rfl⟩ := hok
      exact ⟨⟨hn, fun _ _ => rfl⟩, fun x hx => Or.inl hx⟩
  | cons a rest ih =>
      intro h acc h' out hok hn
      simp only [remapGoH, hdeepcopy, halloc, hsetf, hpopf] at hok
      split at hok
      · exact absurd hok (by simp)
      next v hv =>
        split at hok
        · exact absurd hok (by simp)
        next old hold =>
          split at hok
          · exact absurd hok (by simp)
          next nw hnw =>
            split at hok
            case _ hid =>
              obtain ⟨f2, hout⟩ := ih _ _ _ _ hok (by simp; omega)
              refine ⟨hframe_trans (hframe_alloc_set n h _ _ hn) f2, ?_⟩
              intro x hx
              rcases hout x hx with hacc | hge
              · rcases List.mem_append.mp hacc with h1 | h1
                · exact Or.inl h1
                · right
                  have : x = h.length := by simpa using h1
                  omega
              · exact Or.inr hge
            case _ idv hid =>
              split at hok
              case _ oldid holdid =>
                obtain ⟨f2, hout⟩ := ih _ _ _ _ hok (by simp; omega)
                have f1 : HFrame n h
                    ((((h ++ [hget h a]).set h.length
                        (dset (hget (h ++ [hget h a]) h.length) "image_id"
                          (PyVal.int nw))).set h.length
                      (dset (hget ((h ++ [hget h a]).set h.length
                        (dset (hget (h ++ [hget h a]) h.length) "image_id"
                          (PyVal.int nw))) h.length) "id"
                        (PyVal.int (oldid + annOff)))) : PyHeap) :=
                  hframe_trans (hframe_alloc_set n h _ _ hn)
                    (hframe_set n _ h.length _ (by simp; omega) hn)
                refine ⟨hframe_trans f1 f2, ?_⟩
                intro x hx
                rcases hout x hx with hacc | hge
                · rcases List.mem_append.mp hacc with h1 | h1
                  · exact Or.inl h1
                  · right
                    have : x = h.length := by simpa using h1
                    omega
                · exact Or.inr hge
              case _ holdid =>
                obtain ⟨f2, hout⟩ := ih _ _ _ _ hok (by simp; omega)
                have f1 : HFrame n h
                    ((((h ++ [hget h a]).set h.length
                        (dset (hget (h ++ [hget h a]) h.length) "image_id"
                          (PyVal.int nw))).set h.length
                      (dpop (hget ((h ++ [hget h a]).set h.length
                        (dset (hget (h ++ [hget h a]) h.length) "image_id"
                          (PyVal.int nw))) h.length) "id")) : PyHeap) :=
                  hframe_trans (hframe_alloc_set n h _ _ hn)
                    (hframe_set n _ h.length _ (by simp; omega) hn)
                refine ⟨hframe_trans f1 f2, ?_⟩
                intro x hx
                rcases hout x hx with hacc | hge
                · rcases List.mem_append.mp hacc with h1 | h1
                  · exact Or.inl h1
                  · right
                    have : x = h.length := by simpa using h1
                    omega
                · exact Or.inr hge

theorem copyOpt_frame (n : Nat) (o : Option Nat) (h : PyHeap)
    (hn : n ≤ h.length) :
    HFrame n h (copyOpt h o).1 ∧ ∀ x ∈ (copyOpt h o).2, n ≤ x := by
  cases o with
  | none => exact ⟨⟨hn, fun _ _ => rfl⟩, by simp [copyOpt]⟩
  | some a =>
      refine ⟨?_, ?_⟩
      · simpa [copyOpt, hdeepcopy, halloc] using
          hframe_alloc n h (hget h a) hn
      · intro x hx
        simp [copyOpt, hdeepcopy, halloc] at hx
        omega

theorem copyList_frame (n : Nat) :
    ∀ (l : List Nat) (h : PyHeap), n ≤ h.length →
      HFrame n h (copyList h l).1 ∧ ∀ x ∈ (copyList h l).2, n ≤ x := by
  intro l
  induction l with
  | nil => intro h hn; exact ⟨⟨hn, fun _ _ => rfl⟩, by simp [copyList]⟩
  | cons a rest ih =>
      intro h hn
      obtain ⟨f2, hfresh⟩ := ih (h ++ [hget h a]) (by simp; omega)
      refine ⟨?_, ?_⟩
      · have f12 := hframe_trans (hframe_alloc n h (hget h a) hn) f2
        simpa [copyList, hdeepcopy, halloc] using f12
      · intro x hx
        simp [copyList, hdeepcopy, halloc] at hx
        rcases hx with rfl | hx
        · omega
        · exact hfresh x hx

theorem copyExtra_frame (n : Nat) :
    ∀ (l : List (String × Nat)) (h : PyHeap), n ≤ h.length →
      HFrame n h (copyExtra h l).1 ∧
        ∀ p ∈ (copyExtra h l).2, n ≤ p.2 := by
  intro l
  induction l with
  | nil => intro h hn; exact ⟨⟨hn, fun _ _ => rfl⟩, by simp [copyExtra]⟩
  | cons ka rest ih =>
      obtain ⟨k, a⟩ := ka
      intro h hn
      obtain ⟨f2, hfresh⟩ := ih (h ++ [hget h a]) (by simp; omega)
      refine ⟨?_, ?_⟩
      · have f12 := hframe_trans (hframe_alloc n h (hget h a) hn) f2
        simpa [copyExtra, hdeepcopy, halloc] using f12
      · intro p hp
        simp [copyExtra, hdeepcopy, halloc] at hp
        rcases hp with rfl | hp
        · simp; omega
        · exact hfresh p hp

/-- C10: whenever the heap-level merge succeeds, every heap cell either
input dataset refers to is unchanged (no field of either input is mutated
— the id rewrites happen on fresh copies only), and every record address
the output refers to is freshly allocated (a deep copy made during the
merge), so the output shares no record with the inputs. -/
theorem claim_c10_no_mutation (h0 : PyHeap) (a b : HDataset)
    (h' : PyHeap) (m : HDataset)
    (hok : merge_instancesH h0 a b = .ok (h', m))
    (hwf : ∀ ad ∈ addrsOfH a ++ addrsOfH b, ad < h0.length) :
    (∀ ad ∈ addrsOfH a ++ addrsOfH b, hget h' ad = hget h0 ad) ∧
    (∀ ad ∈ addrsOfH m, h0.length ≤ ad) := by
  unfold merge_instancesH at hok
  split at hok
  · exact absurd hok (by simp)
  · exact absurd hok (by simp)
  next ai aa hai haa =>
    split at hok
    · exact absurd hok (by simp)
    · exact absurd hok (by simp)
    next bi ba hbi hba =>
      split at hok
      · exact absurd hok (by simp)
      next h1 ubi M hbim =>
        split at hok
        · exact absurd hok (by simp)
        next h2 uba hrm =>
          simp only [Except.ok.injEq, Prod.mk.injEq] at hok
          obtain ⟨hh', hm⟩ := hok
          obtain ⟨fb, freshUbi⟩ :=
            bimGoH_frame _ h0.length bi h0 [] [] h1 ubi M hbim (le_refl _)
          obtain ⟨fr, freshUba⟩ :=
            remapGoH_frame M _ h0.length ba h1 [] h2 uba hrm fb.1
          obtain ⟨fI, freshI⟩ := copyOpt_frame h0.length a.info? h2 fr.1
          obtain ⟨fL, freshL⟩ :=
            copyOpt_frame h0.length a.licenses? (copyOpt h2 a.info?).1 fI.1
          obtain ⟨fC, freshC⟩ :=
            copyOpt_frame h0.length a.categories?
              (copyOpt (copyOpt h2 a.info?).1 a.licenses?).1 fL.1
          obtain ⟨fAi, freshAi⟩ :=
            copyList_frame h0.length ai
              (copyOpt (copyOpt (copyOpt h2 a.info?).1 a.licenses?).1
                a.categories?).1 fC.1
          obtain ⟨fAa, freshAa⟩ :=
            copyList_frame h0.length aa
              (copyList (copyOpt (copyOpt (copyOpt h2 a.info?).1
                a.licenses?).1 a.categories?).1 ai).1 fAi.1
          obtain ⟨fEx, freshEx⟩ :=
            copyExtra_frame h0.length a.extra
              (copyList (copyList (copyOpt (copyOpt (copyOpt h2
                a.info?).1 a.licenses?).1 a.categories?).1 ai).1 aa).1
              fAa.1
          have ftot : HFrame h0.length h0 h' := by
            rw [← hh']
            exact hframe_trans fb (hframe_trans fr (hframe_trans fI
              (hframe_trans fL (hframe_trans fC (hframe_trans fAi
                (hframe_trans fAa fEx))))))
          constructor
          · intro ad had
            exact ftot.2 ad (hwf ad had)
          · intro ad had
            rw [← hm] at had
            simp only [addrsOfH, Option.getD_some, List.mem_append,
              List.mem_map, Option.mem_toList, Option.mem_def] at had
            rcases had with (((((hAi | hUbi) | (hAa | hUba)) | hInfo) |
              hLic) | hCat) | hEx
            · exact freshAi ad hAi
            · rcases freshUbi ad hUbi with hemp | hge
              · simp at hemp
              · exact hge
            · exact freshAa ad hAa
            · rcases freshUba ad hUba with hemp | hge
              · simp at hemp
              · exact hge
            · exact freshI ad hInfo
            · exact freshL ad hLic
            · exact freshC ad hCat
            · obtain ⟨p, hp, hpe⟩ := hEx
              have := freshEx p hp
              omega

/-- Concrete heap for the C10 witness: A's image at address 0, A's
annotation at address 1, B's image at address 2. -/
def wh0 : PyHeap :=
  [[("id", PyVal.int 1)], [("image_id", PyVal.int 1)], [("id", PyVal.int 2)]]

def wha : HDataset :=
  { images? := some [0], annotations? := some [1], info? := none,
    licenses? := none, categories? := none, extra := [] }

def whb : HDataset :=
  { images? := some [2], annotations? := some [], info? := none,
    licenses? := none, categories? := none, extra := [] }

/-- The heap after merging `wha` and `whb`: the three input cells are
intact and three fresh copies have been appended (B's image remapped to
id 3, then A's image and annotation copied verbatim). -/
def whr : PyHeap :=
  wh0 ++ [[("id", PyVal.int 3)], [("id", PyVal.int 1)],
    [("image_id", PyVal.int 1)]]

def whm : HDataset :=
  { images? := some [4, 3], annotations? := some [5], info? := none,
    licenses? := none, categories? := none, extra := [] }

/-- C10 witness: the no-mutation/freshness theorem applied to the concrete
heap run above. -/
theorem claim_c10_witness :
    (∀ ad ∈ addrsOfH wha ++ addrsOfH whb, hget whr ad = hget wh0 ad) ∧
    (∀ ad ∈ addrsOfH whm, (wh0 : PyHeap).length ≤ ad) :=
  claim_c10_no_mutation wh0 wha whb whr whm (by decide) (by decide)
